import Mathlib

/-!
Verification of the autochecklist task-execution engine against its
specification.  The Python package itself (TaskGraph, FunctionFinder,
CancellationToken, Messenger) is not part of the checked-in sources; the
definitions for those components are modelled from the specification, as
marked in their doc comments.  `get_unique_key` (messenger/web/index.js)
and `_parse_boxcast_event_url` (MCR teardown script) are embedded from the
source files directly.
-/

namespace Autochecklist

/-- Task statuses, as enumerated in the Messenger web contract
(`log_status` in messenger/web/index.js): NOT_STARTED, RUNNING,
WAITING_FOR_USER, DONE, SKIPPED. -/
inductive TaskStatus where
  | NOT_STARTED
  | RUNNING
  | WAITING_FOR_USER
  | DONE
  | SKIPPED
deriving DecidableEq, Repr

/-- A status is terminal when it is DONE or SKIPPED. -/
def TaskStatus.isTerminal : TaskStatus → Bool
  | .DONE => true
  | .SKIPPED => true
  | _ => false

/-- Problem levels, as enumerated in the Messenger web contract
(`log_problem` in messenger/web/index.js): WARN, ERROR, FATAL. -/
inductive ProblemLevel where
  | WARN
  | ERROR
  | FATAL
deriving DecidableEq, Repr

/-- A reported problem: level, message, optional cause/stacktrace, and the
associated task name (spec section 3). -/
structure Problem where
  taskName : String
  level : ProblemLevel
  message : String
  stacktrace : Option String
deriving DecidableEq, Repr

/-- Responses a user may give to an action item, as enumerated in the
Messenger web contract (`add_action_item` in messenger/web/index.js):
DONE, RETRY, SKIP. -/
inductive UserResponse where
  | DONE
  | RETRY
  | SKIP
deriving DecidableEq, Repr

/-- Modelled from the spec: the static, authored `TaskModel`
(TaskDefinition, spec section 3): `name`, `description` (optional when
subtasks are present, spec section 6), `prerequisites` (list of task
names), `subtasks` (nested definitions) and the `only_auto` flag.  The
Python class `TaskModel` is not among the checked-in sources. -/
inductive TaskModel where
  | mk (name : String) (description : Option String)
      (prerequisites : List String) (subtasks : List TaskModel)
      (only_auto : Bool)

def TaskModel.name : TaskModel → String
  | .mk n _ _ _ _ => n

def TaskModel.description : TaskModel → Option String
  | .mk _ d _ _ _ => d

def TaskModel.prerequisites : TaskModel → List String
  | .mk _ _ p _ _ => p

def TaskModel.subtasks : TaskModel → List TaskModel
  | .mk _ _ _ s _ => s

def TaskModel.only_auto : TaskModel → Bool
  | .mk _ _ _ _ a => a

/-- Modelled from the spec: the runtime task node (spec section 3):
one TaskDefinition flattened with a back-reference to its parent and a
leaf marker.  The Python `Task`/`TaskGraph` classes are not among the
checked-in sources. -/
structure GTask where
  name : String
  description : Option String
  prerequisites : List String
  parent : Option String
  isLeaf : Bool
  only_auto : Bool
deriving DecidableEq, Repr

mutual

/-- Flatten a task tree into runtime nodes, recording each node's parent. -/
def flattenWithParent (parent : Option String) : TaskModel → List GTask
  | .mk n d p subs a =>
      ⟨n, d, p, parent, subs.isEmpty, a⟩ :: flattenListWithParent n subs

/-- Flatten a list of subtasks whose common parent is named `parent`. -/
def flattenListWithParent (parent : String) : List TaskModel → List GTask
  | [] => []
  | t :: ts => flattenWithParent (some parent) t ++ flattenListWithParent parent ts

end

/-- All runtime nodes of a tree, the root having no parent. -/
def TaskModel.flatten (t : TaskModel) : List GTask :=
  flattenWithParent none t

/-- The names of all tasks in a tree, in flattening order. -/
def TaskModel.names (t : TaskModel) : List String :=
  t.flatten.map GTask.name

/-- Modelled from the spec: the mutable status table owned by the
Scheduler (spec section 3), an association list from task name to status;
a task absent from the table is NOT_STARTED. -/
def SchedState := List (String × TaskStatus)

instance : DecidableEq SchedState := by
  unfold SchedState
  infer_instance

/-- Current status of a task: the first entry for its name, defaulting to
NOT_STARTED. -/
def statusOf (s : SchedState) (n : String) : TaskStatus :=
  match s.lookup n with
  | some st => st
  | none => .NOT_STARTED

/-- Record a status change for task `n`. -/
def setStatus (s : SchedState) (n : String) (st : TaskStatus) : SchedState :=
  (n, st) :: s

/-- Modelled from the spec: the validated runtime task graph (spec
section 4.1 output). -/
structure Graph where
  tasks : List GTask
deriving DecidableEq, Repr

/-- Look up a runtime node by name. -/
def Graph.findTask (g : Graph) (n : String) : Option GTask :=
  g.tasks.find? (fun t => t.name = n)

/-- Prerequisites declared directly on the task named `n`. -/
def prereqsOf (g : Graph) (n : String) : List String :=
  match g.findTask n with
  | some t => t.prerequisites
  | none => []

/-- Parent (enclosing composite) of the task named `n`, if any. -/
def parentOf (g : Graph) (n : String) : Option String :=
  match g.findTask n with
  | some t => t.parent
  | none => none

/-- The chain of ancestor composites of a task, walked through the parent
back-references with fuel bounded by the size of the graph. -/
def ancestorsAux (g : Graph) : Nat → String → List String
  | 0, _ => []
  | fuel + 1, n =>
      match parentOf g n with
      | some p => p :: ancestorsAux g fuel p
      | none => []

def ancestors (g : Graph) (n : String) : List String :=
  ancestorsAux g g.tasks.length n

/-- Modelled from the spec: every name in the task's own `prerequisites`
and every `prerequisites` entry of every ancestor composite (spec
section 4.2, readiness predicate). -/
def allPrereqs (g : Graph) (n : String) : List String :=
  prereqsOf g n ++ (ancestors g n).flatMap (prereqsOf g)

/-- Modelled from the spec: a leaf task is eligible to start when every
name in `allPrereqs` has reached DONE or SKIPPED (spec section 4.2). -/
def readyB (g : Graph) (s : SchedState) (n : String) : Bool :=
  (allPrereqs g n).all (fun p => (statusOf s p).isTerminal)

/-- The observable scheduler events that mutate a task's status. -/
inductive SchedAction where
  | start (n : String)
  | automationSucceeded (n : String)
  | automationFailed (n : String) (msg : String)
  | noAutomation (n : String)
  | respond (n : String) (r : UserResponse)
deriving DecidableEq, Repr

/-- Modelled from the spec: the per-leaf state machine of the
Scheduler/Executor (spec section 4.2): NOT_STARTED → RUNNING →
{DONE, SKIPPED}, with the RUNNING → WAITING_FOR_USER → RUNNING sub-cycle;
`start` is guarded by the readiness predicate and restricted to leaves;
an ill-formed event is rejected (`none`). -/
def applyAction (g : Graph) (s : SchedState) : SchedAction → Option SchedState
  | .start n =>
      match g.findTask n with
      | some t =>
          if t.isLeaf && decide (statusOf s n = .NOT_STARTED) && readyB g s n then
            some (setStatus s n .RUNNING)
          else
            none
      | none => none
  | .automationSucceeded n =>
      if statusOf s n = .RUNNING then some (setStatus s n .DONE) else none
  | .automationFailed n _ =>
      if statusOf s n = .RUNNING then some (setStatus s n .WAITING_FOR_USER) else none
  | .noAutomation n =>
      if statusOf s n = .RUNNING then some (setStatus s n .WAITING_FOR_USER) else none
  | .respond n r =>
      if statusOf s n = .WAITING_FOR_USER then
        match r with
        | .DONE => some (setStatus s n .DONE)
        | .SKIP => some (setStatus s n .SKIPPED)
        | .RETRY => some (setStatus s n .RUNNING)
      else
        none

/-- Outcome of invoking an automation handler (spec section 4.2 step 3):
it returns normally, raises/returns a cancellation signal, or raises any
other error. -/
inductive AutoResult where
  | success
  | cancelled
  | error (msg : String)
deriving DecidableEq, Repr

/-- A pending request for a human decision about one task (spec
glossary), as presented by `add_action_item` in messenger/web/index.js. -/
structure ActionItem where
  taskName : String
  prompt : String
  allowedResponses : List UserResponse
deriving DecidableEq, Repr

/-- The observable result of one dispatch step for one task. -/
structure DispatchOutcome where
  newStatus : TaskStatus
  problems : List Problem
  actionItem : Option ActionItem
  cancelled : Bool
deriving DecidableEq, Repr

/-- Modelled from the spec: the dispatch algorithm per eligible task
(spec section 4.2).  No handler → straight to manual handling; handler
returns normally → DONE; handler raises a cancellation signal →
cancellation propagates; handler raises any other error → a Problem at
ERROR level with cause detail, then manual handling.  Manual handling
presents the task's description as an action item with responses
{DONE, RETRY, SKIP}, RETRY omitted when no automation exists.  The Python
`TaskGraph` dispatch code is not among the checked-in sources. -/
def dispatch (t : GTask) (handler : Option AutoResult) : DispatchOutcome :=
  match handler with
  | none =>
      { newStatus := .WAITING_FOR_USER
        problems := []
        actionItem := some ⟨t.name, t.description.getD "", [.DONE, .SKIP]⟩
        cancelled := false }
  | some .success =>
      { newStatus := .DONE, problems := [], actionItem := none, cancelled := false }
  | some .cancelled =>
      { newStatus := .RUNNING, problems := [], actionItem := none, cancelled := true }
  | some (.error msg) =>
      { newStatus := .WAITING_FOR_USER
        problems := [⟨t.name, .ERROR, "An error occurred while trying to complete the task automatically.", some msg⟩]
        actionItem := some ⟨t.name, t.description.getD "", [.DONE, .RETRY, .SKIP]⟩
        cancelled := false }

/-- Initial state of a run: every task is NOT_STARTED. -/
def initState : SchedState := []

/-- States reachable from the initial state by scheduler events. -/
inductive Reachable (g : Graph) : SchedState → Prop where
  | init : Reachable g initState
  | step {s s' : SchedState} {a : SchedAction} :
      Reachable g s → applyAction g s a = some s' → Reachable g s'

/-- Modelled from the spec: a registered automation handler (spec
sections 4.3 and 6): the task name it implements and its required input
types. -/
structure Handler where
  taskName : String
  inputTypes : List String
deriving DecidableEq, Repr

/-- Modelled from the spec: the Cancellation Token and the Interaction
Channel are special-cased as always-available inputs (spec section 4.3). -/
def specialInputs : List String := ["CancellationToken", "Messenger"]

/-- An input slot is resolvable when its type is special-cased or matched
against the service pool. -/
def resolvableInput (pool : List String) (ty : String) : Bool :=
  specialInputs.contains ty || pool.contains ty

/-- Modelled from the spec: the Automation Resolver (`FunctionFinder`,
spec section 4.3): look up a handler registered under the exact task name;
resolve each declared input slot against the service pool; if a required
input cannot be resolved, fail closed — no automation, one WARN-level
Problem, the run is not aborted.  The Python `FunctionFinder` class is not
among the checked-in sources. -/
def find_function (handlers : List Handler) (pool : List String)
    (taskName : String) : Option Handler × List Problem :=
  match handlers.find? (fun h => h.taskName = taskName) with
  | none => (none, [])
  | some h =>
      let missing := h.inputTypes.filter (fun ty => !resolvableInput pool ty)
      if missing.isEmpty then
        (some h, [])
      else
        (none,
          [⟨taskName, .WARN,
            "Failed to find all the arguments for the automation.", none⟩])

/-- The modulus 2^32 of JavaScript `Uint32Array` cells. -/
def UINT32_MOD : Nat := 4294967296

/-- Embedded from messenger/web/index.js: `get_unique_key` performs
`Atomics.add(key_generation_array, 0, 1)` on a one-cell `Uint32Array`,
returning the old value of the cell and storing the incremented value
reduced modulo 2^32. -/
def get_unique_key (counter : Nat) : Nat × Nat :=
  (counter, (counter + 1) % UINT32_MOD)

/-- Value of the key-generation cell after `k` calls, starting from the
initial `new Uint32Array([0])`. -/
def counterAfter : Nat → Nat
  | 0 => 0
  | k + 1 => (get_unique_key (counterAfter k)).2

/-- The key returned by the `i`-th call to `get_unique_key` (0-based). -/
def nthKey (i : Nat) : Nat :=
  (get_unique_key (counterAfter i)).1

/-- Outcome of an attentive sleep. -/
inductive SleepOutcome where
  | completed
  | cancelled
deriving DecidableEq, Repr

/-- Whether the token shows CANCEL_REQUESTED at instant `t`, for a token
whose cancellation is requested at instant `cancelAt` (never, if none).
A token, once cancelled, stays cancelled (spec section 4.5). -/
def cancelRequestedAt (cancelAt : Option Nat) (t : Nat) : Bool :=
  match cancelAt with
  | none => false
  | some c => c ≤ t

/-- Modelled from the spec: the attentive-sleep loop (spec section 4.5):
instead of sleeping for the full duration uninterruptibly, sleep at most
one polling `interval` at a time and return early with a cancellation
outcome the moment CANCEL_REQUESTED is observed.  Returns the outcome and
the instant at which the sleep returns.  The Python `sleep_attentively`
function is not among the checked-in sources. -/
def sleepLoop (cancelAt : Option Nat) (interval : Nat) :
    Nat → Nat → SleepOutcome × Nat
  | remaining, now =>
      if h : remaining = 0 then
        (.completed, now)
      else if hd : min interval remaining = 0 then
        (.completed, now)
      else if cancelRequestedAt cancelAt (now + min interval remaining) then
        (.cancelled, now + min interval remaining)
      else
        sleepLoop cancelAt interval (remaining - min interval remaining)
          (now + min interval remaining)
  termination_by remaining _ => remaining
  decreasing_by omega

/-- Modelled from the spec: `sleep_attentively` with a requested timeout,
a cancellation token and a polling interval, starting at instant 0. -/
def sleep_attentively (timeout : Nat) (cancelAt : Option Nat)
    (interval : Nat) : SleepOutcome × Nat :=
  sleepLoop cancelAt interval timeout 0

/-- Names occurring more than once in a list. -/
def dupNames (l : List String) : List String :=
  l.filter (fun n => 1 < l.count n)

/-- Modelled from the spec: the load-time validation error, naming the
offending task(s) (spec section 4.1).  The Python exception class is not
among the checked-in sources. -/
inductive GraphValidationError where
  | missingDescription (name : String)
  | duplicateName (name : String)
  | unknownPrerequisite (task : String) (prereq : String)
  | selfPrerequisite (name : String)
  | cycle (names : List String)
deriving DecidableEq, Repr

/-- The task name(s) a validation error points at. -/
def GraphValidationError.offenders : GraphValidationError → List String
  | .missingDescription n => [n]
  | .duplicateName n => [n]
  | .unknownPrerequisite t _ => [t]
  | .selfPrerequisite n => [n]
  | .cycle ns => ns

/-- The parent→subtask edges of the flattened tree. -/
def parentEdges (all : List GTask) : List (String × String) :=
  all.filterMap (fun t => t.parent.map (fun p => (p, t.name)))

/-- The prerequisite edges of the flattened tree, oriented from the
prerequisite to the dependent task. -/
def prereqEdges (all : List GTask) : List (String × String) :=
  all.flatMap (fun t => t.prerequisites.map (fun p => (p, t.name)))

/-- The union graph of parent→subtask and prerequisite edges (spec
section 4.1 step (c)). -/
def unionEdges (all : List GTask) : List (String × String) :=
  parentEdges all ++ prereqEdges all

/-- One pruning pass of cycle detection: keep exactly the nodes that
still have an outgoing edge to a remaining node. -/
def keepStep (E : List (String × String)) (rem : List String) : List String :=
  rem.filter (fun a => rem.any (fun b => E.contains (a, b)))

/-- Iterate the pruning pass. -/
def elimIter (E : List (String × String)) : Nat → List String → List String
  | 0, rem => rem
  | k + 1, rem => elimIter E k (keepStep E rem)

/-- The nodes left over after pruning as many times as there are nodes;
these are the nodes reported as being part of a cycle.  Every node that
lies on a cycle is kept by every pruning pass, so a cyclic graph always
leaves a non-empty remainder. -/
def cyclicRemainder (E : List (String × String)) (nodes : List String) :
    List String :=
  elimIter E nodes.length nodes

/-- Modelled from the spec: the Task Graph Loader and Validator (spec
sections 4.1 and 6).  Accepts the nested TaskModel tree and produces a
validated runtime graph or a `GraphValidationError`.  Checks: the record
format (a leaf must carry a description, spec section 6); duplicate names
anywhere in the tree; prerequisite names that match no defined task;
a task that declares itself as its own prerequisite (a trivial cycle,
reported distinctly for a clearer message); a cycle in the union graph of
parent→subtask and prerequisite edges.  The Python `TaskGraph`
constructor is not among the checked-in sources. -/
def load (t : TaskModel) : Except GraphValidationError Graph :=
  match (t.flatten.filter (fun g => g.isLeaf && g.description.isNone)).head? with
  | some g => .error (.missingDescription g.name)
  | none =>
  match (dupNames t.names).head? with
  | some n => .error (.duplicateName n)
  | none =>
  match (t.flatten.flatMap (fun g =>
      (g.prerequisites.filter (fun p => !t.names.contains p)).map
        (fun p => (g.name, p)))).head? with
  | some pr => .error (.unknownPrerequisite pr.1 pr.2)
  | none =>
  match (t.flatten.filter (fun g => g.prerequisites.contains g.name)).head? with
  | some g => .error (.selfPrerequisite g.name)
  | none =>
  if (cyclicRemainder (unionEdges t.flatten) t.names).isEmpty then
    .ok ⟨t.flatten⟩
  else
    .error (.cycle (cyclicRemainder (unionEdges t.flatten) t.names))

/-- Embedded from the structure of the entry points (mcr_setup.pyw:
`TaskModel.load` and the `TaskGraph` constructor run inside a try block;
on failure a FATAL problem is logged and `main` returns before
`task_graph.run()` is reached): load the graph, then run a script of
scheduler events; when loading fails no event is ever applied. -/
def runRun (t : TaskModel) (script : List SchedAction) : SchedState :=
  match load t with
  | .error _ => initState
  | .ok g => script.foldl (fun s a => (applyAction g s a).getD s) initState

/-- A non-empty path in an edge list, measured by its number of edges. -/
inductive IsPath (E : List (String × String)) : String → String → Nat → Prop where
  | single {a b : String} : (a, b) ∈ E → IsPath E a b 1
  | cons {a b c : String} {n : Nat} :
      (a, b) ∈ E → IsPath E b c n → IsPath E a c (n + 1)

/-- A node lies on a cycle when some non-empty path leads from it back to
itself. -/
def OnCycle (E : List (String × String)) (a : String) : Prop :=
  ∃ n, IsPath E a a n

/-- The union graph of a tree contains a cycle. -/
def HasCycle (t : TaskModel) : Prop :=
  ∃ a, OnCycle (unionEdges t.flatten) a

mutual

/-- Modelled from the spec: a node's derived status (spec section 4.2):
a leaf's status is read from the scheduler table; a composite's status is
derived, DONE once every subtask is DONE or SKIPPED, and is never stored
independently. -/
def derivedStatus (s : SchedState) : TaskModel → TaskStatus
  | .mk n _ _ [] _ => statusOf s n
  | .mk _ _ _ (c :: cs) _ =>
      if subsTerminal s (c :: cs) then .DONE else .RUNNING

/-- Whether every task in a list has a terminal derived status. -/
def subsTerminal (s : SchedState) : List TaskModel → Bool
  | [] => true
  | c :: cs => (derivedStatus s c).isTerminal && subsTerminal s cs

end

/-- Whitespace for the purposes of Python `str.strip()`, restricted to
the Latin-1 range: tab, line feed, vertical tab, form feed, carriage
return, space, the four information separators, next line and no-break
space. -/
def isPySpace (c : Char) : Bool :=
  c.toNat = 32 || c.toNat = 9 || c.toNat = 10 || c.toNat = 11 ||
  c.toNat = 12 || c.toNat = 13 || c.toNat = 28 || c.toNat = 29 ||
  c.toNat = 30 || c.toNat = 31 || c.toNat = 133 || c.toNat = 160

/-- Embedded from the MCR teardown script: `event_url.strip()`. -/
def pyStrip (s : List Char) : List Char :=
  ((s.dropWhile isPySpace).reverse.dropWhile isPySpace).reverse

/-- The character class `[a-zA-Z0-9]` of the BoxCast URL pattern. -/
def isUrlAlnum (c : Char) : Bool :=
  (97 ≤ c.toNat && c.toNat ≤ 122) || (65 ≤ c.toNat && c.toNat ≤ 90) ||
  (48 ≤ c.toNat && c.toNat ≤ 57)

/-- The literal part of the BoxCast URL pattern. -/
def boxcastUrlStart : List Char :=
  "https://dashboard.boxcast.com/broadcasts/".toList

/-- Python `$` (without MULTILINE): the match may end at the end of the
string or just before a newline that ends the string. -/
def dollarEnd (r : List Char) : Bool :=
  r = [] || r = ['\n']

/-- The `.*$` part after `\?`: `.` never matches a newline, so the
remainder must be newline-free, or newline-free up to a single final
newline absorbed by `$`. -/
def queryMatch (q : List Char) : Bool :=
  !q.contains '\n' ||
  (q.getLast? = some '\n' && !q.dropLast.contains '\n')

/-- The `(?:\?.*)?$` part of the BoxCast URL pattern. -/
def suffixMatch2 (r : List Char) : Bool :=
  dollarEnd r ||
  (match r with
   | c :: q => if c = '?' then queryMatch q else false
   | [] => false)

/-- The `/?(?:\?.*)?$` part of the BoxCast URL pattern.  When the
remainder starts with a slash the slash must be consumed: leaving it
unconsumed can satisfy neither `\?` nor `$`. -/
def suffixMatch (r : List Char) : Bool :=
  match r with
  | [] => suffixMatch2 []
  | c :: t => if c = '/' then suffixMatch2 t else suffixMatch2 (c :: t)

/-- Embedded from the MCR teardown script: the anchored search for
`^https://dashboard\.boxcast\.com/broadcasts/([a-zA-Z0-9]\x7b20,20\x7d)/?(?:\?.*)?$`,
returning the captured 20-character event id on a match. -/
def matchBroadcastUrl (s : List Char) : Option (List Char) :=
  if boxcastUrlStart.isPrefixOf s then
    if ((s.drop boxcastUrlStart.length).take 20).length = 20
        && ((s.drop boxcastUrlStart.length).take 20).all isUrlAlnum
        && suffixMatch ((s.drop boxcastUrlStart.length).drop 20) then
      some ((s.drop boxcastUrlStart.length).take 20)
    else
      none
  else
    none

/-- Embedded from the MCR teardown script: `_parse_boxcast_event_url`.
Raising `ArgumentTypeError` is modelled as returning `.error` with the
start of the corresponding message.  Checks, in source order: empty
input; input consisting only of the character with code 22 (CTRL+V);
then the stripped input is matched against the BoxCast URL pattern. -/
def parse_boxcast_event_url (s : List Char) : Except String (List Char) :=
  if s.isEmpty then
    .error "Empty input. The event URL is required."
  else if s.all (fun c => c.toNat = 22) then
    .error "You entered the value CTRL+V, which is not a valid event URL."
  else
    match matchBroadcastUrl (pyStrip s) with
    | some eventId => .ok eventId
    | none => .error "Expected the BoxCast event URL to match the regular expression."

/-- The claim's characterization of a valid BoxCast event URL: after
stripping surrounding whitespace, the input is the dashboard broadcast
URL carrying a 20-character alphanumeric id, with an optional trailing
slash and an optional query string (a `?` followed by characters of a
single line). -/
def SpecBoxcastMatch (s : List Char) (eventId : List Char) : Prop :=
  ∃ slash query,
    pyStrip s = boxcastUrlStart ++ eventId ++ slash ++ query ∧
    eventId.length = 20 ∧
    (∀ c ∈ eventId, isUrlAlnum c = true) ∧
    (slash = [] ∨ slash = ['/']) ∧
    (query = [] ∨ ∃ q, query = '?' :: q ∧ '\n' ∉ q)

/-! ## Theorems -/

theorem statusOf_setStatus (s : SchedState) (m n : String) (st : TaskStatus) :
    statusOf (setStatus s m st) n = if n = m then st else statusOf s n := by
  by_cases h : n = m
  · simp [statusOf, setStatus, List.lookup, h]
  · have hb : (n == m) = false := by simp [h]
    simp [statusOf, setStatus, List.lookup, hb, h]

/-- C5: for every pair of tasks, replacing the terminal status DONE of one
task by SKIPPED leaves the readiness predicate of every task unchanged:
SKIPPED satisfies downstream prerequisites exactly like DONE. -/
theorem skipped_satisfies_prereqs_like_done (g : Graph) (s : SchedState)
    (n u : String) :
    readyB g (setStatus s n .SKIPPED) u = readyB g (setStatus s n .DONE) u := by
  unfold readyB
  congr 1
  funext p
  rw [statusOf_setStatus, statusOf_setStatus]
  by_cases h : p = n <;> simp [h, TaskStatus.isTerminal]

theorem subsTerminal_iff (s : SchedState) (l : List TaskModel) :
    subsTerminal s l = true ↔ ∀ c ∈ l, (derivedStatus s c).isTerminal = true := by
  induction l with
  | nil => simp [subsTerminal]
  | cons c cs ih => simp [subsTerminal, ih]

/-- C4: at every point during a run, a composite node's derived status is
DONE if and only if every one of its subtasks is DONE or SKIPPED; a
composite is never itself executed (the scheduler refuses to start a
non-leaf node) and has no independent RUNNING state (its status is
derived from its subtasks alone). -/
theorem composite_derived_status (s : SchedState) (t : TaskModel)
    (hcomp : t.subtasks ≠ []) :
    (derivedStatus s t = .DONE ↔
      ∀ c ∈ t.subtasks, (derivedStatus s c).isTerminal = true)
    ∧ (∀ (g : Graph) (st : SchedState) (tk : GTask),
        g.findTask tk.name = some tk → tk.isLeaf = false →
        applyAction g st (.start tk.name) = none) := by
  constructor
  · cases t with
    | mk n d p subs a =>
      cases subs with
      | nil => simp [TaskModel.subtasks] at hcomp
      | cons c cs =>
        simp only [TaskModel.subtasks]
        rw [derivedStatus]
        by_cases h : subsTerminal s (c :: cs) = true
        · rw [if_pos h]
          exact ⟨fun _ => (subsTerminal_iff s (c :: cs)).mp h, fun _ => rfl⟩
        · rw [if_neg h]
          rw [← subsTerminal_iff]
          constructor
          · intro hcontra; cases hcontra
          · intro hterm; exact absurd hterm h
  · intro g st tk hfind hleaf
    simp [applyAction, hfind, hleaf]

/-- Witness for C4 at a concrete composite with one DONE and one SKIPPED
subtask. -/
theorem composite_derived_status_witness :
    derivedStatus [("a", TaskStatus.DONE), ("b", TaskStatus.SKIPPED)]
      (.mk "root" none [] [.mk "a" (some "da") [] [] false,
        .mk "b" (some "db") [] [] false] false) = .DONE := by
  have h := composite_derived_status
    [("a", TaskStatus.DONE), ("b", TaskStatus.SKIPPED)]
    (.mk "root" none [] [.mk "a" (some "da") [] [] false,
      .mk "b" (some "db") [] [] false] false)
    (by simp [TaskModel.subtasks])
  refine h.1.mpr ?_
  intro c hc
  simp only [TaskModel.subtasks, List.mem_cons, List.not_mem_nil, or_false] at hc
  rcases hc with rfl | rfl <;> decide

/-- C3: the scheduler never transitions a task out of NOT_STARTED unless
every task named in its own prerequisites and in the prerequisites of
every ancestor composite has already reached DONE or SKIPPED. -/
theorem not_started_until_prereqs_terminal (g : Graph) (s s' : SchedState)
    (a : SchedAction) (n : String)
    (hreach : Reachable g s)
    (hstep : applyAction g s a = some s')
    (hns : statusOf s n = .NOT_STARTED)
    (hchange : statusOf s' n ≠ .NOT_STARTED) :
    ∀ p ∈ allPrereqs g n, (statusOf s p).isTerminal = true := by
  intro p hp
  cases a with
  | start m =>
    simp only [applyAction] at hstep
    cases hfind : g.findTask m with
    | none => rw [hfind] at hstep; cases hstep
    | some tk =>
      rw [hfind] at hstep
      simp only [] at hstep
      by_cases hg : (tk.isLeaf && decide (statusOf s m = .NOT_STARTED)
          && readyB g s m) = true
      · rw [if_pos hg] at hstep
        have hs' : s' = setStatus s m .RUNNING := (Option.some.inj hstep).symm
        by_cases hnm : n = m
        · subst hnm
          rw [Bool.and_eq_true] at hg
          have hready : readyB g s n = true := hg.2
          rw [readyB] at hready
          exact List.all_eq_true.mp hready p hp
        · rw [hs', statusOf_setStatus, if_neg hnm] at hchange
          exact absurd hns hchange
      · rw [if_neg hg] at hstep; cases hstep
  | automationSucceeded m =>
    simp only [applyAction] at hstep
    by_cases hrun : statusOf s m = .RUNNING
    · rw [if_pos hrun] at hstep
      have hs' : s' = setStatus s m .DONE := (Option.some.inj hstep).symm
      by_cases hnm : n = m
      · subst hnm; rw [hns] at hrun; cases hrun
      · rw [hs', statusOf_setStatus, if_neg hnm] at hchange
        exact absurd hns hchange
    · rw [if_neg hrun] at hstep; cases hstep
  | automationFailed m msg =>
    simp only [applyAction] at hstep
    by_cases hrun : statusOf s m = .RUNNING
    · rw [if_pos hrun] at hstep
      have hs' : s' = setStatus s m .WAITING_FOR_USER := (Option.some.inj hstep).symm
      by_cases hnm : n = m
      · subst hnm; rw [hns] at hrun; cases hrun
      · rw [hs', statusOf_setStatus, if_neg hnm] at hchange
        exact absurd hns hchange
    · rw [if_neg hrun] at hstep; cases hstep
  | noAutomation m =>
    simp only [applyAction] at hstep
    by_cases hrun : statusOf s m = .RUNNING
    · rw [if_pos hrun] at hstep
      have hs' : s' = setStatus s m .WAITING_FOR_USER := (Option.some.inj hstep).symm
      by_cases hnm : n = m
      · subst hnm; rw [hns] at hrun; cases hrun
      · rw [hs', statusOf_setStatus, if_neg hnm] at hchange
        exact absurd hns hchange
    · rw [if_neg hrun] at hstep; cases hstep
  | respond m r =>
    simp only [applyAction] at hstep
    by_cases hw : statusOf s m = .WAITING_FOR_USER
    · rw [if_pos hw] at hstep
      by_cases hnm : n = m
      · subst hnm; rw [hns] at hw; cases hw
      · cases r with
        | DONE =>
          have hs' : s' = setStatus s m .DONE := (Option.some.inj hstep).symm
          rw [hs', statusOf_setStatus, if_neg hnm] at hchange
          exact absurd hns hchange
        | RETRY =>
          have hs' : s' = setStatus s m .RUNNING := (Option.some.inj hstep).symm
          rw [hs', statusOf_setStatus, if_neg hnm] at hchange
          exact absurd hns hchange
        | SKIP =>
          have hs' : s' = setStatus s m .SKIPPED := (Option.some.inj hstep).symm
          rw [hs', statusOf_setStatus, if_neg hnm] at hchange
          exact absurd hns hchange
    · rw [if_neg hw] at hstep; cases hstep

/-- Witness for C3: in a reachable state where task a is DONE, starting
task b (whose prerequisite is a) certifies that a is terminal. -/
theorem not_started_until_prereqs_terminal_witness :
    (statusOf [("a", TaskStatus.DONE), ("a", TaskStatus.RUNNING)] "a").isTerminal
      = true :=
  not_started_until_prereqs_terminal
    (Graph.mk [⟨"a", some "da", [], none, true, false⟩,
      ⟨"b", some "db", ["a"], none, true, false⟩])
    [("a", TaskStatus.DONE), ("a", TaskStatus.RUNNING)]
    (setStatus [("a", TaskStatus.DONE), ("a", TaskStatus.RUNNING)] "b"
      TaskStatus.RUNNING)
    (SchedAction.start "b") "b"
    (@Reachable.step
      (Graph.mk [⟨"a", some "da", [], none, true, false⟩,
        ⟨"b", some "db", ["a"], none, true, false⟩])
      [("a", TaskStatus.RUNNING)]
      [("a", TaskStatus.DONE), ("a", TaskStatus.RUNNING)]
      (SchedAction.automationSucceeded "a")
      (@Reachable.step
        (Graph.mk [⟨"a", some "da", [], none, true, false⟩,
          ⟨"b", some "db", ["a"], none, true, false⟩])
        initState
        [("a", TaskStatus.RUNNING)]
        (SchedAction.start "a")
        Reachable.init (by decide))
      (by decide))
    (by decide) (by decide) (by decide) "a" (by decide)

/-- C1: when a leaf task's automation handler raises a non-cancellation
error, the engine reports a Problem at ERROR level with cause detail and
falls through to manual handling: the task is not marked failed but
enters WAITING_FOR_USER, and an action item with allowed responses drawn
from DONE, RETRY, SKIP is presented, through which the task can still
reach a terminal status. -/
theorem automation_error_falls_back_to_manual (t : GTask) (msg : String) :
    (∃ p ∈ (dispatch t (some (.error msg))).problems,
        p.level = .ERROR ∧ p.stacktrace = some msg)
    ∧ (dispatch t (some (.error msg))).newStatus = .WAITING_FOR_USER
    ∧ (∃ item, (dispatch t (some (.error msg))).actionItem = some item
        ∧ item.taskName = t.name
        ∧ (∀ r ∈ item.allowedResponses, r = .DONE ∨ r = .RETRY ∨ r = .SKIP)
        ∧ .DONE ∈ item.allowedResponses
        ∧ ∀ (g : Graph) (s : SchedState),
            statusOf s t.name = .WAITING_FOR_USER →
            ∃ s', applyAction g s (.respond t.name .DONE) = some s'
              ∧ (statusOf s' t.name).isTerminal = true) := by
  refine ⟨⟨⟨t.name, .ERROR,
      "An error occurred while trying to complete the task automatically.",
      some msg⟩, by simp [dispatch], rfl, rfl⟩, rfl,
    ⟨t.name, t.description.getD "", [.DONE, .RETRY, .SKIP]⟩, rfl, rfl,
    ?_, by simp, ?_⟩
  · intro r hr
    simp only [List.mem_cons, List.not_mem_nil, or_false] at hr
    rcases hr with rfl | rfl | rfl
    · exact Or.inl rfl
    · exact Or.inr (Or.inl rfl)
    · exact Or.inr (Or.inr rfl)
  · intro g s hw
    refine ⟨setStatus s t.name .DONE, ?_, ?_⟩
    · simp [applyAction, hw]
    · rw [statusOf_setStatus, if_pos rfl]
      rfl

/-- Witness for C1: after an automation error on a concrete task, the
DONE response drives the task to a terminal status. -/
theorem automation_error_falls_back_witness :
    ∃ s', applyAction (Graph.mk []) [("demo", TaskStatus.WAITING_FOR_USER)]
        (SchedAction.respond "demo" UserResponse.DONE) = some s'
      ∧ (statusOf s' "demo").isTerminal = true := by
  obtain ⟨-, -, item, -, -, -, -, hrun⟩ :=
    automation_error_falls_back_to_manual
      ⟨"demo", some "d", [], none, true, false⟩ "boom"
  exact hrun (Graph.mk []) [("demo", .WAITING_FOR_USER)] rfl

/-- C7: when a registered handler has a required input that cannot be
resolved from the service pool, resolution fails closed: the task is
treated as having no automation, a WARN-level Problem is surfaced, the
run is not aborted (no problem reaches FATAL), and the task falls to
manual handling. -/
theorem unresolvable_input_fails_closed (handlers : List Handler)
    (pool : List String) (n ty : String) (h : Handler)
    (hfind : handlers.find? (fun x => x.taskName = n) = some h)
    (hty : ty ∈ h.inputTypes)
    (hunres : resolvableInput pool ty = false) :
    (find_function handlers pool n).1 = none
    ∧ (∃ p ∈ (find_function handlers pool n).2, p.level = .WARN)
    ∧ (∀ p ∈ (find_function handlers pool n).2, p.level ≠ .FATAL)
    ∧ (∀ tk : GTask, (dispatch tk none).newStatus = .WAITING_FOR_USER
        ∧ (dispatch tk none).actionItem.isSome = true
        ∧ (dispatch tk none).cancelled = false) := by
  have hmem : ty ∈ h.inputTypes.filter (fun x => !resolvableInput pool x) := by
    rw [List.mem_filter]
    exact ⟨hty, by rw [hunres]; rfl⟩
  have hne : (h.inputTypes.filter (fun x => !resolvableInput pool x)).isEmpty = false := by
    cases hl : h.inputTypes.filter (fun x => !resolvableInput pool x) with
    | nil => rw [hl] at hmem; cases hmem
    | cons a l => rfl
  have hval : find_function handlers pool n =
      (none, [⟨n, .WARN,
        "Failed to find all the arguments for the automation.", none⟩]) := by
    unfold find_function
    rw [hfind]
    simp only [hne, Bool.false_eq_true, if_false]
  rw [hval]
  refine ⟨rfl, ⟨⟨n, .WARN,
    "Failed to find all the arguments for the automation.", none⟩,
    by simp, rfl⟩, ?_, ?_⟩
  · intro p hp
    simp only [List.mem_cons, List.not_mem_nil, or_false] at hp
    rw [hp]
    intro hcontra
    cases hcontra
  · intro tk
    exact ⟨rfl, rfl, rfl⟩

/-- Witness for C7 at a concrete handler whose input type is absent from
the pool. -/
theorem unresolvable_input_fails_closed_witness :
    (find_function [⟨"t1", ["VimeoClient"]⟩] ["PlanningCenterClient"] "t1").1 = none
    ∧ (∃ p ∈ (find_function [⟨"t1", ["VimeoClient"]⟩] ["PlanningCenterClient"] "t1").2,
        p.level = .WARN) := by
  have h := unresolvable_input_fails_closed
    [⟨"t1", ["VimeoClient"]⟩] ["PlanningCenterClient"] "t1" "VimeoClient"
    ⟨"t1", ["VimeoClient"]⟩ (by decide) (by decide) (by decide)
  exact ⟨h.1, h.2.1⟩

theorem counterAfter_eq (k : Nat) : counterAfter k = k % UINT32_MOD := by
  induction k with
  | zero => rfl
  | succ k ih =>
    show (get_unique_key (counterAfter k)).2 = (k + 1) % UINT32_MOD
    rw [get_unique_key, ih]
    show (k % UINT32_MOD + 1) % UINT32_MOD = (k + 1) % UINT32_MOD
    unfold UINT32_MOD
    omega

/-- C9: `get_unique_key` returns the current counter value and increments
the counter modulo 2^32; any two calls among the first 2^32 calls return
distinct keys, and the sequence of returned keys is 0, 1, 2, ... in call
order. -/
theorem get_unique_key_spec (i j : Nat) (hi : i < UINT32_MOD)
    (hj : j < UINT32_MOD) :
    nthKey i = i
    ∧ (i ≠ j → nthKey i ≠ nthKey j)
    ∧ get_unique_key (counterAfter i) =
        (counterAfter i, (counterAfter i + 1) % UINT32_MOD) := by
  have key_eq : ∀ k, k < UINT32_MOD → nthKey k = k := by
    intro k hk
    rw [nthKey, get_unique_key, counterAfter_eq]
    exact Nat.mod_eq_of_lt hk
  refine ⟨key_eq i hi, ?_, rfl⟩
  intro hne
  rw [key_eq i hi, key_eq j hj]
  exact hne

/-- Witness for C9: the first two keys are 0 and 1 and differ. -/
theorem get_unique_key_spec_witness :
    nthKey 0 = 0 ∧ (0 ≠ 1 → nthKey 0 ≠ nthKey 1) ∧
      get_unique_key (counterAfter 0) =
        (counterAfter 0, (counterAfter 0 + 1) % UINT32_MOD) :=
  get_unique_key_spec 0 1 (by decide) (by decide)

theorem sleepLoop_cancel (c interval : Nat) :
    ∀ remaining now, 0 < interval → 0 < remaining → now ≤ c →
      c ≤ now + remaining →
      ∃ t, sleepLoop (some c) interval remaining now = (.cancelled, t)
        ∧ c ≤ t ∧ t ≤ c + interval := by
  intro remaining
  induction remaining using Nat.strong_induction_on with
  | _ remaining ih =>
    intro now hint hrem hnc hcr
    have h0 : ¬ remaining = 0 := by omega
    have hd : ¬ min interval remaining = 0 := by omega
    rw [sleepLoop, dif_neg h0, dif_neg hd]
    by_cases hcan : cancelRequestedAt (some c) (now + min interval remaining) = true
    · rw [if_pos hcan]
      have hc2 : c ≤ now + min interval remaining := by
        simpa [cancelRequestedAt] using hcan
      exact ⟨now + min interval remaining, rfl, hc2, by omega⟩
    · have hgt : ¬ c ≤ now + min interval remaining := by
        simpa [cancelRequestedAt] using hcan
      rw [if_neg hcan]
      exact ih (remaining - min interval remaining) (by omega)
        (now + min interval remaining) hint (by omega) (by omega) (by omega)

/-- C6: an attentive sleep polls its cancellation token at the polling
interval and, if the token reaches CANCEL_REQUESTED during the requested
duration, returns a cancellation outcome no later than one polling
interval after the request, regardless of how much of the requested
duration remains. -/
theorem attentive_sleep_cancellation_latency (timeout interval c : Nat)
    (hint : 0 < interval) (htimeout : 0 < timeout) (hc : c ≤ timeout) :
    ∃ t, sleep_attentively timeout (some c) interval = (.cancelled, t)
      ∧ c ≤ t ∧ t ≤ c + interval :=
  sleepLoop_cancel c interval timeout 0 hint htimeout (Nat.zero_le c) (by omega)

/-- Witness for C6: a 1000-tick sleep with a 100-tick polling interval
cancelled at tick 350. -/
theorem attentive_sleep_cancellation_latency_witness :
    ∃ t, sleep_attentively 1000 (some 350) 100 = (.cancelled, t)
      ∧ 350 ≤ t ∧ t ≤ 450 :=
  attentive_sleep_cancellation_latency 1000 100 350
    (by decide) (by decide) (by decide)

theorem IsPath.append_edge {E : List (String × String)} {x y z : String}
    {m : Nat} (hp : IsPath E x y m) (he : (y, z) ∈ E) :
    IsPath E x z (m + 1) := by
  induction hp with
  | single hxy => exact .cons hxy (.single he)
  | cons hxy _ ih => exact .cons hxy (ih he)

theorem OnCycle.successor {E : List (String × String)} {a : String}
    (h : OnCycle E a) : ∃ b, (a, b) ∈ E ∧ OnCycle E b := by
  obtain ⟨n, hp⟩ := h
  cases hp with
  | single hab => exact ⟨a, hab, 1, .single hab⟩
  | cons hab htail =>
    rename_i b m
    exact ⟨b, hab, m + 1, htail.append_edge hab⟩

theorem OnCycle.mem_keepStep {E : List (String × String)} {rem : List String}
    (hclosed : ∀ x, OnCycle E x → x ∈ rem) {a : String} (ha : OnCycle E a) :
    a ∈ keepStep E rem := by
  obtain ⟨b, hab, hb⟩ := ha.successor
  rw [keepStep, List.mem_filter]
  refine ⟨hclosed a ha, ?_⟩
  rw [List.any_eq_true]
  exact ⟨b, hclosed b hb, by simpa using hab⟩

theorem cyclic_mem_elimIter {E : List (String × String)} :
    ∀ (k : Nat) (rem : List String), (∀ x, OnCycle E x → x ∈ rem) →
      ∀ a, OnCycle E a → a ∈ elimIter E k rem := by
  intro k
  induction k with
  | zero => intro rem hclosed a ha; exact hclosed a ha
  | succ k ih =>
    intro rem hclosed a ha
    rw [elimIter]
    exact ih (keepStep E rem)
      (fun x hx => OnCycle.mem_keepStep hclosed hx) a ha

mutual

theorem parent_mem_flatten :
    ∀ (par : Option String) (t : TaskModel) (g : GTask),
      g ∈ flattenWithParent par t → ∀ q, g.parent = some q →
      par = some q ∨ q ∈ (flattenWithParent par t).map GTask.name
  | par, .mk n d p subs a, g, hg, q, hq => by
      rw [flattenWithParent] at hg
      rcases List.mem_cons.mp hg with rfl | hg2
      · exact Or.inl hq
      · rcases parent_mem_flattenList n subs g hg2 q hq with heq | hmem
        · right
          rw [flattenWithParent, heq]
          simp
        · right
          rw [flattenWithParent]
          simp only [List.map_cons, List.mem_cons]
          exact Or.inr hmem

theorem parent_mem_flattenList :
    ∀ (par : String) (ts : List TaskModel) (g : GTask),
      g ∈ flattenListWithParent par ts → ∀ q, g.parent = some q →
      q = par ∨ q ∈ (flattenListWithParent par ts).map GTask.name
  | par, [], g, hg, q, hq => by cases hg
  | par, t :: ts, g, hg, q, hq => by
      rw [flattenListWithParent] at hg
      rcases List.mem_append.mp hg with h1 | h2
      · rcases parent_mem_flatten (some par) t g h1 q hq with heq | hmem
        · exact Or.inl (Option.some.inj heq).symm
        · right
          rw [flattenListWithParent, List.map_append, List.mem_append]
          exact Or.inl hmem
      · rcases parent_mem_flattenList par ts g h2 q hq with heq | hmem
        · exact Or.inl heq
        · right
          rw [flattenListWithParent, List.map_append, List.mem_append]
          exact Or.inr hmem

end

theorem edge_source_mem (t : TaskModel)
    (hpre : ∀ gt ∈ t.flatten, ∀ p ∈ gt.prerequisites, p ∈ t.names) :
    ∀ xy ∈ unionEdges t.flatten, xy.1 ∈ t.names := by
  intro xy hxy
  rw [unionEdges, List.mem_append] at hxy
  rcases hxy with hpar | hpr
  · rw [parentEdges, List.mem_filterMap] at hpar
    obtain ⟨gt, hgt, hmap⟩ := hpar
    cases hp : gt.parent with
    | none => rw [hp] at hmap; cases hmap
    | some q =>
      rw [hp] at hmap
      simp only [Option.map_some', Option.some.injEq] at hmap
      rcases parent_mem_flatten none t gt hgt q hp with heq | hmem
      · cases heq
      · rw [← hmap]
        exact hmem
  · rw [prereqEdges, List.mem_flatMap] at hpr
    obtain ⟨gt, hgt, hmem⟩ := hpr
    rw [List.mem_map] at hmem
    obtain ⟨p, hp, hmap⟩ := hmem
    rw [← hmap]
    exact hpre gt hgt p hp

theorem onCycle_mem_names (t : TaskModel)
    (hpre : ∀ gt ∈ t.flatten, ∀ p ∈ gt.prerequisites, p ∈ t.names) :
    ∀ a, OnCycle (unionEdges t.flatten) a → a ∈ t.names := by
  intro a ha
  obtain ⟨b, hab, -⟩ := ha.successor
  exact edge_source_mem t hpre (a, b) hab

theorem nodup_of_dupNames_nil {l : List String} (h : dupNames l = []) :
    l.Nodup := by
  rw [List.nodup_iff_count_le_one]
  intro a
  by_contra hcon
  push_neg at hcon
  by_cases hmem : a ∈ l
  · have hdup : a ∈ dupNames l := by
      rw [dupNames, List.mem_filter]
      exact ⟨hmem, by simpa using hcon⟩
    rw [h] at hdup
    cases hdup
  · rw [List.count_eq_zero_of_not_mem hmem] at hcon
    omega

theorem load_ok_good (t : TaskModel) (g : Graph) (hok : load t = .ok g) :
    t.names.Nodup
    ∧ (∀ gt ∈ t.flatten, ∀ p ∈ gt.prerequisites, p ∈ t.names)
    ∧ ¬ HasCycle t
    ∧ g.tasks = t.flatten
    ∧ (∀ gt ∈ t.flatten, gt.isLeaf = true → gt.description.isSome = true) := by
  unfold load at hok
  split at hok
  · exact Except.noConfusion hok
  rename_i hshape
  split at hok
  · exact Except.noConfusion hok
  rename_i hdup
  split at hok
  · exact Except.noConfusion hok
  rename_i hunk
  split at hok
  · exact Except.noConfusion hok
  rename_i hself
  split at hok
  case isTrue hrem =>
    have hg : g.tasks = t.flatten := by
      injection hok with hg2
      rw [← hg2]
    have hnd : t.names.Nodup := by
      apply nodup_of_dupNames_nil
      rw [← List.head?_eq_none_iff]
      exact hdup
    have hpre : ∀ gt ∈ t.flatten, ∀ p ∈ gt.prerequisites, p ∈ t.names := by
      intro gt hgt p hp
      by_contra hmem
      have hnil := List.head?_eq_none_iff.mp hunk
      have hfil : p ∈ gt.prerequisites.filter
          (fun p => !t.names.contains p) := by
        rw [List.mem_filter]
        refine ⟨hp, ?_⟩
        simpa using hmem
      have hin : (gt.name, p) ∈ t.flatten.flatMap (fun g =>
          (g.prerequisites.filter
            (fun p => !t.names.contains p)).map
            (fun p => (g.name, p))) := by
        rw [List.mem_flatMap]
        exact ⟨gt, hgt, List.mem_map.mpr ⟨p, hfil, rfl⟩⟩
      rw [hnil] at hin
      cases hin
    refine ⟨hnd, hpre, ?_, hg, ?_⟩
    · intro hcyc
      obtain ⟨a, ha⟩ := hcyc
      have hmem : a ∈ cyclicRemainder (unionEdges t.flatten) t.names := by
        apply cyclic_mem_elimIter
        · intro x hx
          exact onCycle_mem_names t hpre x hx
        · exact ha
      rw [List.isEmpty_iff] at hrem
      rw [hrem] at hmem
      cases hmem
    · intro gt hgt hleaf
      have hnil := List.head?_eq_none_iff.mp hshape
      cases hdesc : gt.description with
      | some d => rfl
      | none =>
        have hmem : gt ∈ t.flatten.filter
            (fun g => g.isLeaf && g.description.isNone) := by
          rw [List.mem_filter]
          exact ⟨hgt, by rw [hleaf, hdesc]; rfl⟩
        rw [hnil] at hmem
        cases hmem
  case isFalse hrem =>
    exact Except.noConfusion hok

theorem load_error_offenders (t : TaskModel) (e : GraphValidationError)
    (he : load t = .error e) : e.offenders ≠ [] := by
  unfold load at he
  split at he
  · injection he with he2
    rw [← he2]
    simp [GraphValidationError.offenders]
  split at he
  · injection he with he2
    rw [← he2]
    simp [GraphValidationError.offenders]
  split at he
  · injection he with he2
    rw [← he2]
    simp [GraphValidationError.offenders]
  split at he
  · injection he with he2
    rw [← he2]
    simp [GraphValidationError.offenders]
  split at he
  case isTrue hrem => exact Except.noConfusion he
  case isFalse hrem =>
    injection he with he2
    rw [← he2]
    simp only [GraphValidationError.offenders]
    intro hcontra
    rw [hcontra] at hrem
    exact hrem rfl

/-- C2: for every TaskDefinition tree containing a duplicate task name, a
prerequisite that matches no defined task, or a cycle in the union of
parent→subtask and prerequisite edges, loading raises a
`GraphValidationError` naming offending task(s), no graph is built, and
the failure surfaces before any task begins running: every task is still
NOT_STARTED whatever events the run would have applied. -/
theorem invalid_tree_rejected_at_load (t : TaskModel)
    (hbad : ¬ t.names.Nodup
      ∨ (∃ gt ∈ t.flatten, ∃ p ∈ gt.prerequisites, p ∉ t.names)
      ∨ HasCycle t) :
    (∃ e, load t = .error e ∧ e.offenders ≠ [])
    ∧ (∀ g, load t ≠ .ok g)
    ∧ (∀ script n, statusOf (runRun t script) n = .NOT_STARTED) := by
  have herr : ∃ e, load t = .error e := by
    cases hload : load t with
    | ok g =>
      obtain ⟨hnd, hpre, hnc, -⟩ := load_ok_good t g hload
      rcases hbad with h | h | h
      · exact absurd hnd h
      · obtain ⟨gt, hgt, p, hp, hmem⟩ := h
        exact absurd (hpre gt hgt p hp) hmem
      · exact absurd h hnc
    | error e => exact ⟨e, rfl⟩
  obtain ⟨e, he⟩ := herr
  refine ⟨⟨e, he, load_error_offenders t e he⟩, ?_, ?_⟩
  · intro g hcontra
    rw [he] at hcontra
    exact Except.noConfusion hcontra
  · intro script n
    rw [runRun, he]
    rfl

/-- Witness for C2: a two-task prerequisite cycle is rejected. -/
theorem invalid_tree_rejected_at_load_witness :
    (∃ e, load (.mk "root" none []
        [.mk "a" (some "da") ["b"] [] false,
         .mk "b" (some "db") ["a"] [] false] false) = .error e
      ∧ e.offenders ≠ [])
    ∧ (∀ g, load (.mk "root" none []
        [.mk "a" (some "da") ["b"] [] false,
         .mk "b" (some "db") ["a"] [] false] false) ≠ .ok g) := by
  have hcyc : HasCycle (.mk "root" none []
      [.mk "a" (some "da") ["b"] [] false,
       .mk "b" (some "db") ["a"] [] false] false) := by
    refine ⟨"a", 2, IsPath.cons (b := "b") ?_ (IsPath.single ?_)⟩ <;> decide
  have h := invalid_tree_rejected_at_load
    (.mk "root" none []
      [.mk "a" (some "da") ["b"] [] false,
       .mk "b" (some "db") ["a"] [] false] false)
    (Or.inr (Or.inr hcyc))
  exact ⟨h.1, h.2.1⟩

/-- Counterexample to C8: a node carrying both subtasks and a description
is accepted by the Loader, not rejected — the spec makes `description`
optional when subtasks are present, so only a leaf without a description
is an invalid node. -/
theorem composite_with_description_accepted :
    (TaskModel.mk "root" (some "desc") []
        [TaskModel.mk "a" (some "do a") [] [] false] false).subtasks ≠ []
    ∧ (TaskModel.mk "root" (some "desc") []
        [TaskModel.mk "a" (some "do a") [] [] false] false).description.isSome
        = true
    ∧ load (TaskModel.mk "root" (some "desc") []
        [TaskModel.mk "a" (some "do a") [] [] false] false) =
      .ok ⟨(TaskModel.mk "root" (some "desc") []
        [TaskModel.mk "a" (some "do a") [] [] false] false).flatten⟩ := by
  refine ⟨?_, rfl, rfl⟩
  intro h
  simp [TaskModel.subtasks] at h

/-- C8 (amended): for every node of a task tree accepted by the Loader,
exactly one of being a leaf with a description and having subtasks holds;
a leaf without a description is rejected at load time, while a node with
subtasks is accepted whether or not it also carries a description. -/
theorem node_shape_validation (t : TaskModel) :
    (∀ g, load t = .ok g → ∀ tk ∈ g.tasks,
      (tk.isLeaf && tk.description.isSome) ≠ (!tk.isLeaf))
    ∧ ((∃ tk ∈ t.flatten, tk.isLeaf = true ∧ tk.description = none) →
        ∃ e, load t = .error e) := by
  constructor
  · intro g hok tk htk
    obtain ⟨-, -, -, hg, hshape⟩ := load_ok_good t g hok
    rw [hg] at htk
    cases hleaf : tk.isLeaf with
    | true =>
      rw [hshape tk htk hleaf]
      intro hcontra
      cases hcontra
    | false =>
      rw [Bool.false_and]
      intro hcontra
      cases hcontra
  · intro hbadnode
    obtain ⟨tk, htk, hleaf, hdesc⟩ := hbadnode
    have hmem : tk ∈ t.flatten.filter
        (fun g => g.isLeaf && g.description.isNone) := by
      rw [List.mem_filter]
      exact ⟨htk, by rw [hleaf, hdesc]; rfl⟩
    cases hl : t.flatten.filter (fun g => g.isLeaf && g.description.isNone) with
    | nil =>
      rw [hl] at hmem
      cases hmem
    | cons a l =>
      refine ⟨.missingDescription a.name, ?_⟩
      unfold load
      rw [hl]
      rfl

/-- Witness for C8 (amended): a tree whose only leaf lacks a description
is rejected. -/
theorem node_shape_validation_witness :
    ∃ e, load (TaskModel.mk "root" none []
      [TaskModel.mk "a" none [] [] false] false) = .error e := by
  refine (node_shape_validation (TaskModel.mk "root" none []
    [TaskModel.mk "a" none [] [] false] false)).2
    ⟨⟨"a", none, [], some "root", true, false⟩, ?_, rfl, rfl⟩
  decide

theorem head?_dropWhile_false {p : Char → Bool} {l : List Char} {c : Char}
    (h : (l.dropWhile p).head? = some c) : p c = false := by
  induction l with
  | nil => cases h
  | cons a t ih =>
    rw [List.dropWhile_cons] at h
    by_cases hp : p a = true
    · rw [if_pos hp] at h
      exact ih h
    · rw [if_neg hp] at h
      injection h with h2
      rw [← h2]
      exact Bool.eq_false_iff.mpr hp

theorem pyStrip_getLast_not_space {s : List Char} {c : Char}
    (h : (pyStrip s).getLast? = some c) : isPySpace c = false := by
  rw [pyStrip, List.getLast?_reverse] at h
  exact head?_dropWhile_false h

theorem dropWhile_eq_self_of_all {p : Char → Bool} {l : List Char}
    (h : ∀ c ∈ l, p c = false) : l.dropWhile p = l := by
  cases l with
  | nil => rfl
  | cons a t =>
    rw [List.dropWhile_cons, h a (List.mem_cons_self a t)]
    simp

theorem pyStrip_eq_self_of_all {s : List Char}
    (h : ∀ c ∈ s, isPySpace c = false) : pyStrip s = s := by
  rw [pyStrip, dropWhile_eq_self_of_all h,
    dropWhile_eq_self_of_all (fun c hc => h c (List.mem_reverse.mp hc))]
  exact List.reverse_reverse s

theorem isPySpace_of_ctrlv {c : Char} (h : c.toNat = 22) :
    isPySpace c = false := by
  simp [isPySpace, h]

theorem suffixMatch2_decomp {r : List Char}
    (hm : suffixMatch2 r = true)
    (hlast : ∀ c, r.getLast? = some c → isPySpace c = false) :
    r = [] ∨ ∃ q, r = '?' :: q ∧ '\n' ∉ q := by
  rw [suffixMatch2.eq_def, Bool.or_eq_true] at hm
  rcases hm with hd | hq
  · unfold dollarEnd at hd
    rw [Bool.or_eq_true] at hd
    rcases hd with h1 | h2
    · left
      simpa using h1
    · exfalso
      have hr : r = ['\n'] := by simpa using h2
      have hps := hlast '\n' (by rw [hr]; rfl)
      have htrue : isPySpace '\n' = true := by decide
      rw [htrue] at hps
      simp at hps
  · cases r with
    | nil => cases hq
    | cons c q =>
      change (if c = '?' then queryMatch q else false) = true at hq
      by_cases hc : c = '?'
      · subst hc
        rw [if_pos rfl] at hq
        unfold queryMatch at hq
        rw [Bool.or_eq_true] at hq
        rcases hq with hnc | hlastq
        · right
          exact ⟨q, rfl, by simpa using hnc⟩
        · exfalso
          rw [Bool.and_eq_true] at hlastq
          obtain ⟨hql, -⟩ := hlastq
          have hqlast : q.getLast? = some '\n' := by simpa using hql
          have hqne : q ≠ [] := by
            intro h0
            rw [h0] at hqlast
            cases hqlast
          have hrl : ('?' :: q).getLast? = some '\n' := by
            rw [show ('?' :: q) = ['?'] ++ q from rfl,
              List.getLast?_append_of_ne_nil _ hqne]
            exact hqlast
          have hps := hlast '\n' hrl
          have htrue : isPySpace '\n' = true := by decide
          rw [htrue] at hps
          simp at hps
      · rw [if_neg hc] at hq
        cases hq

theorem suffixMatch_decomp {r : List Char}
    (hm : suffixMatch r = true)
    (hlast : ∀ c, r.getLast? = some c → isPySpace c = false) :
    ∃ slash query, r = slash ++ query
      ∧ (slash = [] ∨ slash = ['/'])
      ∧ (query = [] ∨ ∃ q, query = '?' :: q ∧ '\n' ∉ q) := by
  cases r with
  | nil => exact ⟨[], [], rfl, Or.inl rfl, Or.inl rfl⟩
  | cons c t =>
    simp only [suffixMatch] at hm
    by_cases hc : c = '/'
    · subst hc
      rw [if_pos rfl] at hm
      have hlast2 : ∀ d, t.getLast? = some d → isPySpace d = false := by
        intro d hd
        apply hlast d
        have hne : t ≠ [] := by
          intro h0
          rw [h0] at hd
          cases hd
        rw [show ('/' :: t) = ['/'] ++ t from rfl,
          List.getLast?_append_of_ne_nil _ hne]
        exact hd
      rcases suffixMatch2_decomp hm hlast2 with h0 | ⟨q, hq, hnq⟩
      · exact ⟨['/'], [], by rw [h0]; rfl, Or.inr rfl, Or.inl rfl⟩
      · exact ⟨['/'], '?' :: q, by rw [hq]; rfl, Or.inr rfl, Or.inr ⟨q, rfl, hnq⟩⟩
    · rw [if_neg hc] at hm
      rcases suffixMatch2_decomp hm hlast with h0 | ⟨q, hq, hnq⟩
      · cases h0
      · exact ⟨[], c :: t, rfl, Or.inl rfl, Or.inr ⟨q, hq, hnq⟩⟩

theorem suffixMatch_of_decomp {slash query : List Char}
    (hslash : slash = [] ∨ slash = ['/'])
    (hquery : query = [] ∨ ∃ q, query = '?' :: q ∧ '\n' ∉ q) :
    suffixMatch (slash ++ query) = true := by
  have h2 : suffixMatch2 query = true := by
    rcases hquery with rfl | ⟨q, rfl, hnq⟩
    · rfl
    · rw [show suffixMatch2 ('?' :: q) =
        (dollarEnd ('?' :: q) || queryMatch q) from rfl]
      rw [Bool.or_eq_true]
      right
      unfold queryMatch
      rw [Bool.or_eq_true]
      left
      simpa using hnq
  rcases hslash with rfl | rfl
  · rw [List.nil_append]
    rcases hquery with rfl | ⟨q, rfl, hnq⟩
    · rfl
    · rw [show suffixMatch ('?' :: q) = suffixMatch2 ('?' :: q) from rfl]
      exact h2
  · rw [show (['/'] ++ query) = '/' :: query from rfl,
      show suffixMatch ('/' :: query) = suffixMatch2 query from rfl]
    exact h2

theorem spec_of_parse_ok {s eventId : List Char}
    (h : parse_boxcast_event_url s = .ok eventId) : SpecBoxcastMatch s eventId := by
  rw [parse_boxcast_event_url] at h
  by_cases h1 : s.isEmpty = true
  · rw [if_pos h1] at h
    exact Except.noConfusion h
  rw [if_neg h1] at h
  by_cases h2 : s.all (fun c => c.toNat = 22) = true
  · rw [if_pos h2] at h
    exact Except.noConfusion h
  rw [if_neg h2] at h
  cases hm : matchBroadcastUrl (pyStrip s) with
  | none =>
    rw [hm] at h
    exact Except.noConfusion h
  | some i =>
    rw [hm] at h
    have hieq : i = eventId := by
      change Except.ok (ε := String) i = Except.ok eventId at h
      injection h
    subst hieq
    rw [matchBroadcastUrl] at hm
    by_cases hpre : boxcastUrlStart.isPrefixOf (pyStrip s) = true
    · rw [if_pos hpre] at hm
      obtain ⟨X, hX⟩ := List.isPrefixOf_iff_prefix.mp hpre
      have hrest : (pyStrip s).drop boxcastUrlStart.length = X := by
        rw [← hX]
        exact List.drop_left _ _
      rw [hrest] at hm
      by_cases hcond : ((X.take 20).length = 20 && (X.take 20).all isUrlAlnum
          && suffixMatch (X.drop 20)) = true
      · rw [if_pos hcond] at hm
        injection hm with hm2
        rw [Bool.and_eq_true, Bool.and_eq_true] at hcond
        obtain ⟨⟨hlen, halnum⟩, hsuf⟩ := hcond
        have hlen2 : (X.take 20).length = 20 := by simpa using hlen
        have hXsplit : X = X.take 20 ++ X.drop 20 :=
          (List.take_append_drop 20 X).symm
        have hlast : ∀ c, (X.drop 20).getLast? = some c → isPySpace c = false := by
          intro c hc
          apply pyStrip_getLast_not_space (s := s)
          have hne : X.drop 20 ≠ [] := by
            intro h0
            rw [h0] at hc
            cases hc
          rw [← hX, hXsplit, ← List.append_assoc,
            List.getLast?_append_of_ne_nil _ hne]
          exact hc
        obtain ⟨slash, query, hsq, hs, hq⟩ := suffixMatch_decomp hsuf hlast
        refine ⟨slash, query, ?_, ?_, ?_, hs, hq⟩
        · rw [← hX, hXsplit, hsq, hm2]
          simp [List.append_assoc]
        · rw [← hm2]
          exact hlen2
        · intro c hc
          rw [← hm2] at hc
          exact List.all_eq_true.mp halnum c hc
      · rw [if_neg hcond] at hm
        exact Option.noConfusion hm
    · rw [if_neg hpre] at hm
      exact Option.noConfusion hm

theorem parse_ok_of_spec {s eventId : List Char}
    (h : SpecBoxcastMatch s eventId) : parse_boxcast_event_url s = .ok eventId := by
  obtain ⟨slash, query, heq, hlen, halnum, hslash, hquery⟩ := h
  simp only [List.append_assoc] at heq
  have hsne : s ≠ [] := by
    intro h0
    rw [h0] at heq
    have heq2 : boxcastUrlStart ++ (eventId ++ (slash ++ query)) = [] :=
      heq.symm
    rw [List.append_eq_nil] at heq2
    exact absurd heq2.1 (by decide)
  have hP : boxcastUrlStart =
      'h' :: "ttps://dashboard.boxcast.com/broadcasts/".toList := rfl
  have hnotall : ¬ (s.all (fun c => c.toNat = 22) = true) := by
    intro hall
    rw [List.all_eq_true] at hall
    have hstrip : pyStrip s = s :=
      pyStrip_eq_self_of_all
        (fun c hc => isPySpace_of_ctrlv (by simpa using hall c hc))
    rw [hstrip] at heq
    cases s with
    | nil => exact hsne rfl
    | cons c t =>
      rw [hP] at heq
      change c :: t = 'h' :: _ at heq
      injection heq with hch hrest
      have h22 := hall c (List.mem_cons_self c t)
      rw [hch] at h22
      exact absurd h22 (by decide)
  rw [parse_boxcast_event_url]
  rw [if_neg (by
    intro hcontra
    rw [List.isEmpty_iff] at hcontra
    exact hsne hcontra)]
  rw [if_neg hnotall]
  have hmb : matchBroadcastUrl (pyStrip s) = some eventId := by
    rw [matchBroadcastUrl, heq]
    have hpre : boxcastUrlStart.isPrefixOf
        (boxcastUrlStart ++ (eventId ++ (slash ++ query))) = true := by
      rw [ List.isPrefixOf_iff_prefix]
      exact ⟨_, rfl⟩
    rw [if_pos hpre]
    have hdropP : (boxcastUrlStart ++ (eventId ++ (slash ++ query))).drop
        boxcastUrlStart.length = eventId ++ (slash ++ query) :=
      List.drop_left _ _
    rw [hdropP, List.take_left' hlen, List.drop_left' hlen]
    rw [if_pos ?_]
    rw [Bool.and_eq_true, Bool.and_eq_true]
    refine ⟨⟨by simpa using hlen, ?_⟩, suffixMatch_of_decomp hslash hquery⟩
    rw [List.all_eq_true]
    exact halnum
  rw [hmb]

/-- C10: `_parse_boxcast_event_url` returns the 20-character alphanumeric
broadcast id exactly when the input, after stripping surrounding
whitespace, is the dashboard broadcast URL with an optional trailing
slash and optional query string; it raises on the empty string, on a
string consisting only of the character with code 22 (CTRL+V), and on
every other non-matching string. -/
theorem parse_boxcast_event_url_spec (s : List Char) :
    (∀ eventId, parse_boxcast_event_url s = .ok eventId ↔
      SpecBoxcastMatch s eventId)
    ∧ (s = [] → ∃ m, parse_boxcast_event_url s = .error m)
    ∧ (s ≠ [] → (∀ c ∈ s, c.toNat = 22) →
        ∃ m, parse_boxcast_event_url s = .error m)
    ∧ ((¬ ∃ eventId, SpecBoxcastMatch s eventId) →
        ∃ m, parse_boxcast_event_url s = .error m) := by
  refine ⟨fun eventId => ⟨spec_of_parse_ok, parse_ok_of_spec⟩, ?_, ?_, ?_⟩
  · intro h0
    subst h0
    exact ⟨_, rfl⟩
  · intro hne hall
    refine ⟨"You entered the value CTRL+V, which is not a valid event URL.", ?_⟩
    rw [parse_boxcast_event_url]
    rw [if_neg (by
      intro hcontra
      rw [List.isEmpty_iff] at hcontra
      exact hne hcontra)]
    rw [if_pos (List.all_eq_true.mpr (fun c hc => by simpa using hall c hc))]
  · intro hno
    cases hp : parse_boxcast_event_url s with
    | ok i => exact absurd ⟨i, spec_of_parse_ok hp⟩ hno
    | error m => exact ⟨m, rfl⟩

/-- Witness for C10: a concrete dashboard URL with surrounding blanks and
a query string parses to its broadcast id. -/
theorem parse_boxcast_event_url_spec_witness :
    parse_boxcast_event_url
      (" https://dashboard.boxcast.com/broadcasts/abcdefghijklm0123456/?x=1 ".toList)
      = .ok ("abcdefghijklm0123456".toList) := by
  refine ((parse_boxcast_event_url_spec _).1 _).mpr
    ⟨"/".toList, "?x=1".toList, by decide, by decide, ?_, Or.inr rfl,
      Or.inr ⟨"x=1".toList, rfl, by decide⟩⟩
  intro c hc
  fin_cases hc <;> decide

end Autochecklist
